import Mathlib

/-!
Verification development for the moving-edges ellipse tracker `vpMeEllipse`
(src/src/tracking/moving-edges/vpMeEllipse.h).

The header implements inline: the robust-threshold clamp `setThresholdRobust`,
the circle-mode flag setter `setCircle`, and all read accessors
(`get_m00` … `getHighestAngle`, `getEquationParam`).  These are embedded
directly from the source.  The private algorithmic members (`leastSquare`,
`getParameters`, `suppressPoints`, `computeMoments`, `updateTheta`,
`setExtremities`, `initTracking` bodies) are declared but their
implementation file is not part of the sources; those are modelled from the
specification, each marked `Modelled from the spec:` in its doc comment.

Doubles are embedded as exact real numbers; image points as pairs of reals.
-/

open Real

/-- The five conic coefficients `K0 … K4` of the implicit equation
`i² + K0·j² + 2K1·ij + 2K2·i + 2K3·j + K4 = 0` (vpMeEllipse.h line 71,
field `K` line 309). -/
structure ConicK where
  k0 : ℝ
  k1 : ℝ
  k2 : ℝ
  k3 : ℝ
  k4 : ℝ

/-- Geometric parameters of the ellipse: center `(ic, jc)`, semi-minor axis
`a`, semi-major axis `b`, orientation `e` (vpMeEllipse.h lines 310-317). -/
structure GeoParams where
  ic : ℝ
  jc : ℝ
  a : ℝ
  b : ℝ
  e : ℝ

/-- Raw and central geometric moments of the fitted ellipse
(vpMeEllipse.h lines 334-341). -/
structure Moments where
  m00 : ℝ
  m10 : ℝ
  m01 : ℝ
  m11 : ℝ
  m20 : ℝ
  m02 : ℝ
  mu11 : ℝ
  mu20 : ℝ
  mu02 : ℝ

/-- The state of a `vpMeEllipse` tracker: the protected data members of
vpMeEllipse.h lines 306-347, plus `siteList` modelling the list of tracked
moving-edge sites inherited from `vpMeTracker` (positions only; that base
class is not part of the sources). -/
structure MeEllipseState where
  K : ConicK
  iPc : ℝ × ℝ
  a : ℝ
  b : ℝ
  e : ℝ
  iP1 : ℝ × ℝ
  iP2 : ℝ × ℝ
  alpha1 : ℝ
  alpha2 : ℝ
  ce : ℝ
  se : ℝ
  angle : List ℝ
  m00 : ℝ
  mu11 : ℝ
  mu20 : ℝ
  mu02 : ℝ
  m10 : ℝ
  m01 : ℝ
  m11 : ℝ
  m02 : ℝ
  m20 : ℝ
  thresholdWeight : ℝ
  circle : Bool
  siteList : List (ℝ × ℝ)

/-- The geometric parameters currently stored in a tracker state. -/
def stateParams (s : MeEllipseState) : GeoParams :=
  ⟨s.iPc.1, s.iPc.2, s.a, s.b, s.e⟩

/-- `vpMeEllipse::setThresholdRobust` (vpMeEllipse.h lines 289-297):
clamps the robust-rejection threshold into `[0,1]` on write. -/
noncomputable def setThresholdRobust (s : MeEllipseState) (threshold : ℝ) :
    MeEllipseState :=
  if threshold < 0 then { s with thresholdWeight := 0 }
  else if threshold > 1 then { s with thresholdWeight := 1 }
  else { s with thresholdWeight := threshold }

/-- `vpMeEllipse::setCircle` (vpMeEllipse.h line 180). -/
def setCircle (s : MeEllipseState) (circle : Bool) : MeEllipseState :=
  { s with circle := circle }

/-- `vpMeEllipse::get_m00` (vpMeEllipse.h line 187): returns the stored value
and, being `const`, the unchanged state. -/
def get_m00 (s : MeEllipseState) : ℝ × MeEllipseState := (s.m00, s)

/-- `vpMeEllipse::get_m10` (vpMeEllipse.h line 194). -/
def get_m10 (s : MeEllipseState) : ℝ × MeEllipseState := (s.m10, s)

/-- `vpMeEllipse::get_m01` (vpMeEllipse.h line 201). -/
def get_m01 (s : MeEllipseState) : ℝ × MeEllipseState := (s.m01, s)

/-- `vpMeEllipse::get_m11` (vpMeEllipse.h line 208). -/
def get_m11 (s : MeEllipseState) : ℝ × MeEllipseState := (s.m11, s)

/-- `vpMeEllipse::get_m20` (vpMeEllipse.h line 215). -/
def get_m20 (s : MeEllipseState) : ℝ × MeEllipseState := (s.m20, s)

/-- `vpMeEllipse::get_m02` (vpMeEllipse.h line 222). -/
def get_m02 (s : MeEllipseState) : ℝ × MeEllipseState := (s.m02, s)

/-- `vpMeEllipse::get_mu11` (vpMeEllipse.h line 229). -/
def get_mu11 (s : MeEllipseState) : ℝ × MeEllipseState := (s.mu11, s)

/-- `vpMeEllipse::get_mu02` (vpMeEllipse.h line 236). -/
def get_mu02 (s : MeEllipseState) : ℝ × MeEllipseState := (s.mu02, s)

/-- `vpMeEllipse::get_mu20` (vpMeEllipse.h line 243). -/
def get_mu20 (s : MeEllipseState) : ℝ × MeEllipseState := (s.mu20, s)

/-- `vpMeEllipse::getCenter` (vpMeEllipse.h line 248). -/
def getCenter (s : MeEllipseState) : (ℝ × ℝ) × MeEllipseState := (s.iPc, s)

/-- `vpMeEllipse::getA` (vpMeEllipse.h line 253). -/
def getA (s : MeEllipseState) : ℝ × MeEllipseState := (s.a, s)

/-- `vpMeEllipse::getB` (vpMeEllipse.h line 258). -/
def getB (s : MeEllipseState) : ℝ × MeEllipseState := (s.b, s)

/-- `vpMeEllipse::getE` (vpMeEllipse.h line 263). -/
def getE (s : MeEllipseState) : ℝ × MeEllipseState := (s.e, s)

/-- `vpMeEllipse::getEquationParam` (vpMeEllipse.h line 268): writes
`A = a; B = b; E = e` to its out-parameters and leaves the state unchanged. -/
def getEquationParam (s : MeEllipseState) : (ℝ × ℝ × ℝ) × MeEllipseState :=
  ((s.a, s.b, s.e), s)

/-- `vpMeEllipse::getSmallestAngle` (vpMeEllipse.h line 273). -/
def getSmallestAngle (s : MeEllipseState) : ℝ × MeEllipseState := (s.alpha1, s)

/-- `vpMeEllipse::getHighestAngle` (vpMeEllipse.h line 278). -/
def getHighestAngle (s : MeEllipseState) : ℝ × MeEllipseState := (s.alpha2, s)

/-- The left-hand side of the implicit conic equation of vpMeEllipse.h
line 71: a point lies on the conic `K` exactly when this value is `0`. -/
def conicEval (K : ConicK) (pt : ℝ × ℝ) : ℝ :=
  pt.1 ^ 2 + K.k0 * pt.2 ^ 2 + 2 * K.k1 * pt.1 * pt.2 +
    2 * K.k2 * pt.1 + 2 * K.k3 * pt.2 + K.k4

/-- The parametrization of the ellipse documented at vpMeEllipse.h lines
85-86: `i = ic + b·cos e·cos α − a·sin e·sin α`,
`j = jc + b·sin e·cos α + a·cos e·sin α`. -/
noncomputable def ellipsePoint (p : GeoParams) (α : ℝ) : ℝ × ℝ :=
  (p.ic + p.b * Real.cos p.e * Real.cos α - p.a * Real.sin p.e * Real.sin α,
   p.jc + p.b * Real.sin p.e * Real.cos α + p.a * Real.cos p.e * Real.sin α)

/-- The conic coefficients of the ellipse with center `(ic, jc)`, semi-axes
`a`, `b` and orientation direction `(ce, se)`: the expansion of
`((i-ic)·ce + (j-jc)·se)²/b² + (-(i-ic)·se + (j-jc)·ce)²/a² = 1`, normalized
so that the coefficient of `i²` is `1` as required by the equation of
vpMeEllipse.h line 71. -/
noncomputable def conicOfGeom (ic jc a b ce se : ℝ) : ConicK :=
  let N := ce ^ 2 / b ^ 2 + se ^ 2 / a ^ 2
  let q0 := (se ^ 2 / b ^ 2 + ce ^ 2 / a ^ 2) / N
  let q1 := ce * se * (1 / b ^ 2 - 1 / a ^ 2) / N
  ⟨q0, q1, -(ic + q1 * jc), -(q1 * ic + q0 * jc),
   ic ^ 2 + q0 * jc ^ 2 + 2 * q1 * ic * jc - 1 / N⟩

/-- The conic coefficients corresponding to geometric parameters `p`. -/
noncomputable def conicOfParams (p : GeoParams) : ConicK :=
  conicOfGeom p.ic p.jc p.a p.b (Real.cos p.e) (Real.sin p.e)

/-- A point lies on the ellipse described by `p` when it satisfies the
implicit conic equation of vpMeEllipse.h line 69-71 for the corresponding
coefficients. -/
noncomputable def onEllipse (p : GeoParams) (pt : ℝ × ℝ) : Prop :=
  conicEval (conicOfParams p) pt = 0

/-- Sum of squared residuals of the implicit conic equation over a point
list: the objective of the least-squares fit. -/
def conicResidual (pts : List (ℝ × ℝ)) (K : ConicK) : ℝ :=
  (pts.map fun pt => conicEval K pt ^ 2).sum

/-- Modelled from the spec: the output contract of `vpMeEllipse::leastSquare`
(declared vpMeEllipse.h line 352, implementation not in the sources).  Per
§4.2 it solves the implicit conic over the active sites by (weighted) least
squares, in circle mode with `K0 = 1`, `K1 = 0` fixed; we specify the result
as a minimizer of the residual objective over the admissible coefficients
(unit weights; the robust kernel is explicitly left open by the spec §9). -/
def leastSquareSpec (circle : Bool) (pts : List (ℝ × ℝ)) (K : ConicK) : Prop :=
  (circle = true → K.k0 = 1 ∧ K.k1 = 0) ∧
  ∀ K' : ConicK, (circle = true → K'.k0 = 1 ∧ K'.k1 = 0) →
    conicResidual pts K ≤ conicResidual pts K'

/-- Center row of the conic-to-ellipse closed form: the `i` coordinate of the
center of the conic `K`. -/
noncomputable def conicCenterI (K : ConicK) : ℝ :=
  (K.k1 * K.k3 - K.k0 * K.k2) / (K.k0 - K.k1 ^ 2)

/-- The `j` coordinate of the center of the conic `K`. -/
noncomputable def conicCenterJ (K : ConicK) : ℝ :=
  (K.k1 * K.k2 - K.k3) / (K.k0 - K.k1 ^ 2)

/-- The discriminant-like quantity `sqrt((K0-1)² + 4K1²)` used by the
conic-to-ellipse closed form. -/
noncomputable def conicSq (K : ConicK) : ℝ :=
  Real.sqrt ((K.k0 - 1) ^ 2 + 4 * K.k1 ^ 2)

/-- The numerator `ic² + K0·jc² + 2K1·ic·jc − K4` of the squared-axis
formulas, evaluated at the recovered center. -/
noncomputable def conicNum (K : ConicK) : ℝ :=
  conicCenterI K ^ 2 + K.k0 * conicCenterJ K ^ 2 +
    2 * K.k1 * conicCenterI K * conicCenterJ K - K.k4

/-- Modelled from the spec: `vpMeEllipse::getParameters` (declared
vpMeEllipse.h line 357, implementation not in the sources).  Per §4.3 it is
the pure closed-form conic-to-ellipse conversion `K → GeometricParameters`,
with a circle-mode shortcut for the orientation and the canonical range and
`a ≤ b` convention; the semi-axes come out of the two eigendirections via
`sq`, the orientation from the arctangent form (`0` when `K1 = 0`, where the
general formula is singular). -/
noncomputable def getParametersK (K : ConicK) (circle : Bool) : GeoParams :=
  ⟨conicCenterI K, conicCenterJ K,
   Real.sqrt (2 * conicNum K / (1 + K.k0 + conicSq K)),
   Real.sqrt (2 * conicNum K / (1 + K.k0 - conicSq K)),
   if circle = true ∨ K.k1 = 0 then 0
   else Real.arctan (-2 * K.k1 / (K.k0 - 1 + conicSq K))⟩

/-- Modelled from the spec (§4.2, §4.7): the minimum number of distinct
points required by the fit — 5 in ellipse mode, 3 in circle mode. -/
def minRequiredPoints (circle : Bool) : ℕ :=
  if circle then 3 else 5

/-- Error kinds of §7 of the spec. -/
inductive TrackError where
  | insufficientPoints
  | degenerateGeometry
deriving DecidableEq

/-- Modelled from the spec: the distinct-point guard of
`vpMeEllipse::initTracking` / `leastSquare` (declared vpMeEllipse.h lines
151-153 and 352, implementations not in the sources): initialization fails
with `InsufficientPointsError` when fewer than the minimum required distinct
points are supplied; otherwise the distinct points are handed to the fit.
Polymorphic in the point type (instantiated with exact coordinates). -/
def initTrackingGuard {α : Type} [DecidableEq α] (circle : Bool)
    (pts : List α) : Except TrackError (List α) :=
  if pts.dedup.length < minRequiredPoints circle then
    .error .insufficientPoints
  else
    .ok pts.dedup

/-- Modelled from the spec: one re-weighting iteration of the robust fit
(§4.2) combined with `vpMeEllipse::suppressPoints` (declared vpMeEllipse.h
line 354, implementation not in the sources): every active site whose weight
for this iteration falls below the rejection threshold is removed from the
active set.  `w` is the residual-derived weight of a site for this iteration
(the robust kernel is left open by the spec §9); sites are identified by
their position, which is fixed during the intra-frame loop. -/
def fitStep (w : ℚ × ℚ → ℚ) (thr : ℚ) (sites : List (ℚ × ℚ)) :
    List (ℚ × ℚ) :=
  sites.filter fun p => thr ≤ w p

/-- Modelled from the spec: the bounded iterative re-weighting loop of §4.2,
`w n` being the weight function produced by the fit of iteration `n`. -/
def fitIterate (w : ℕ → ℚ × ℚ → ℚ) (thr : ℚ) (sites : List (ℚ × ℚ)) :
    ℕ → List (ℚ × ℚ)
  | 0 => sites
  | n + 1 => fitStep (w n) thr (fitIterate w thr sites n)

/-- Wraps a real angle into `[0, 2π)`. -/
noncomputable def wrap2pi (x : ℝ) : ℝ :=
  2 * π * Int.fract (x / (2 * π))

/-- Two-argument arctangent, used to invert the ellipse parametrization. -/
noncomputable def atan2 (y x : ℝ) : ℝ :=
  if 0 < x then Real.arctan (y / x)
  else if x < 0 then Real.arctan (y / x) + π
  else if 0 < y then π / 2
  else if y < 0 then -(π / 2)
  else 0

/-- Modelled from the spec: the parametric angle of a site, §4.4 — the
inverse of the parametrization of vpMeEllipse.h lines 85-86 using the
current center and orientation, wrapped into `[0, 2π)` (part of
`vpMeEllipse::updateTheta`, implementation not in the sources). -/
noncomputable def siteAngle (p : GeoParams) (pt : ℝ × ℝ) : ℝ :=
  wrap2pi (atan2
    ((-(pt.1 - p.ic) * Real.sin p.e + (pt.2 - p.jc) * Real.cos p.e) / p.a)
    (((pt.1 - p.ic) * Real.cos p.e + (pt.2 - p.jc) * Real.sin p.e) / p.b))

/-- The cyclic angular gap from `q.1` forward to `q.2`. -/
noncomputable def cyclicGap (q : ℝ × ℝ) : ℝ :=
  wrap2pi (q.2 - q.1)

/-- The pair with the largest cyclic gap among `best` and the elements
of `l`. -/
noncomputable def maxGapPair (best : ℝ × ℝ) (l : List (ℝ × ℝ)) : ℝ × ℝ :=
  l.foldl (fun acc q => if cyclicGap acc < cyclicGap q then q else acc) best

/-- The wraparound normalization of the arc bounds: when the raw highest
angle is below the smallest one the arc straddles the `0/2π` seam and `2π`
is added to it. -/
noncomputable def normalizeArc (a1 a2 : ℝ) : ℝ × ℝ :=
  if a2 < a1 then (a1, a2 + 2 * π) else (a1, a2)

/-- Modelled from the spec: the arc-bound recomputation of §4.4 (part of
`vpMeEllipse::setExtremities`, implementation not in the sources).  The site
angles are sorted; the bounds are the two angles bordering the largest
cyclic gap between consecutive sorted sites (for a set not straddling the
seam this is the min/max pair), then wraparound-normalized.  An empty set
defaults to the full circle. -/
noncomputable def computeArcBounds (angles : List ℝ) : ℝ × ℝ :=
  match (angles.mergeSort fun x y => decide (x ≤ y)).zip
      ((angles.mergeSort fun x y => decide (x ≤ y)).rotate 1) with
  | [] => (0, 2 * π)
  | q :: qs => normalizeArc (maxGapPair q qs).2 (maxGapPair q qs).1

/-- Modelled from the spec: `vpMeEllipse::updateTheta` (declared
vpMeEllipse.h line 353, implementation not in the sources): recomputes the
stored parametric angle of every active site from the current geometric
parameters (§4.4). -/
noncomputable def updateTheta (s : MeEllipseState) : MeEllipseState :=
  { s with angle := s.siteList.map (siteAngle (stateParams s)) }

/-- Modelled from the spec: `vpMeEllipse::setExtremities` (declared
vpMeEllipse.h line 356, implementation not in the sources): recomputes the
arc bounds `alpha1`, `alpha2` from the stored site angles (§4.4). -/
noncomputable def setExtremities (s : MeEllipseState) : MeEllipseState :=
  { s with alpha1 := (computeArcBounds s.angle).1,
           alpha2 := (computeArcBounds s.angle).2 }

/-- Modelled from the spec: the closed-form moments of the ellipse with
geometric parameters `p` (§4.6): area `m00 = π·a·b`, first-order raw moments
through the centroid, second-order central moments by closed-form
integration over the enclosed area, second-order raw moments by the
standard translation formulas. -/
noncomputable def momentsOfParams (p : GeoParams) : Moments :=
  let area := π * p.a * p.b
  let c2 := Real.cos p.e ^ 2
  let s2 := Real.sin p.e ^ 2
  let cmu20 := π / 4 * (p.a * p.b) * (p.b ^ 2 * c2 + p.a ^ 2 * s2)
  let cmu02 := π / 4 * (p.a * p.b) * (p.b ^ 2 * s2 + p.a ^ 2 * c2)
  let cmu11 := π / 4 * (p.a * p.b) * (p.b ^ 2 - p.a ^ 2) *
    Real.cos p.e * Real.sin p.e
  ⟨area, p.ic * area, p.jc * area,
   cmu11 + p.ic * p.jc * area,
   cmu20 + p.ic ^ 2 * area,
   cmu02 + p.jc ^ 2 * area,
   cmu11, cmu20, cmu02⟩

/-- Modelled from the spec: `vpMeEllipse::computeMoments` (declared
vpMeEllipse.h line 358, implementation not in the sources): updates the
stored moment fields as a pure function of the current geometric parameters
(§4.6); no other field is touched and the site set is not read. -/
noncomputable def computeMoments (s : MeEllipseState) : MeEllipseState :=
  let M := momentsOfParams (stateParams s)
  { s with m00 := M.m00, m10 := M.m10, m01 := M.m01, m11 := M.m11,
           m20 := M.m20, m02 := M.m02, mu11 := M.mu11, mu20 := M.mu20,
           mu02 := M.mu02 }

/-- The tuple of all stored moment fields of a tracker state. -/
def momentFields (s : MeEllipseState) :
    ℝ × ℝ × ℝ × ℝ × ℝ × ℝ × ℝ × ℝ × ℝ :=
  (s.m00, s.m10, s.m01, s.m11, s.m20, s.m02, s.mu11, s.mu20, s.mu02)

/-- The tuple of all non-moment fields of a tracker state. -/
def coreFields (s : MeEllipseState) :
    ConicK × (ℝ × ℝ) × ℝ × ℝ × ℝ × (ℝ × ℝ) × (ℝ × ℝ) × ℝ × ℝ × ℝ × ℝ ×
      List ℝ × ℝ × Bool × List (ℝ × ℝ) :=
  (s.K, s.iPc, s.a, s.b, s.e, s.iP1, s.iP2, s.alpha1, s.alpha2, s.ce, s.se,
   s.angle, s.thresholdWeight, s.circle, s.siteList)

/-- A concrete tracker state used to instantiate universally quantified
statements: unit circle at the origin. -/
def testState : MeEllipseState :=
  ⟨⟨1, 0, 0, 0, -1⟩, (0, 0), 1, 1, 0, (0, 0), (0, 0), 0, 0, 1, 0, [],
   0, 0, 0, 0, 0, 0, 0, 0, 0, 0, false, []⟩

/-- A second concrete tracker state, agreeing with `testState` on the
geometric parameters but with a different site set and threshold. -/
def testStateB : MeEllipseState :=
  { testState with siteList := [(5, 5), (7, 2)], thresholdWeight := 1,
                   angle := [1, 2] }

/-- Five points of the unit circle with exact rational coordinates, no three
of them collinear; used to instantiate fit statements. -/
noncomputable def unitCirclePts : List (ℝ × ℝ) :=
  [(1, 0), (-1, 0), (0, 1), (0, -1), (3 / 5, 4 / 5)]

/-- Helper: one fit-suppression step only removes sites. -/
theorem fitStep_subset (w : ℚ × ℚ → ℚ) (thr : ℚ) (sites : List (ℚ × ℚ)) :
    ∀ p ∈ fitStep w thr sites, p ∈ sites := by
  intro p hp
  exact List.mem_of_mem_filter hp

/-- C1: for every real input `t`, after `setThresholdRobust(t)` the stored
rejection threshold lies in `[0,1]`: it is `0` when `t < 0`, `1` when
`t > 1`, and `t` otherwise — the value is clamped on write, never
rejected. -/
theorem setThresholdRobust_clamps (s : MeEllipseState) (t : ℝ) :
    (0 ≤ (setThresholdRobust s t).thresholdWeight ∧
      (setThresholdRobust s t).thresholdWeight ≤ 1) ∧
    (t < 0 → (setThresholdRobust s t).thresholdWeight = 0) ∧
    (1 < t → (setThresholdRobust s t).thresholdWeight = 1) ∧
    (0 ≤ t → t ≤ 1 → (setThresholdRobust s t).thresholdWeight = t) := by
  unfold setThresholdRobust
  rcases lt_or_ge t 0 with h0 | h0
  · rw [if_pos h0]
    exact ⟨⟨le_refl 0, by norm_num⟩, fun _ => rfl, fun h => by linarith,
      fun h _ => by linarith⟩
  · rw [if_neg (not_lt.mpr h0)]
    rcases lt_or_ge 1 t with h1 | h1
    · rw [if_pos h1]
      exact ⟨⟨by norm_num, le_refl 1⟩, fun h => by linarith, fun _ => rfl,
        fun _ h2 => by linarith⟩
    · rw [if_neg (not_lt.mpr h1)]
      exact ⟨⟨h0, h1⟩, fun h => by linarith, fun h => by linarith,
        fun _ _ => rfl⟩

/-- Witness for C1 at a concrete out-of-range input. -/
theorem setThresholdRobust_clamps_witness :
    (setThresholdRobust testState (3 / 2)).thresholdWeight = 1 :=
  (setThresholdRobust_clamps testState (3 / 2)).2.2.1 (by norm_num)

/-- C10: the stored threshold after any call equals `min 1 (max 0 t)`
exactly, and for `t` already in `[0,1]` (boundaries included) the clamp is
the identity. -/
theorem setThresholdRobust_minmax (s : MeEllipseState) (t : ℝ) :
    (setThresholdRobust s t).thresholdWeight = min 1 (max 0 t) ∧
    (0 ≤ t → t ≤ 1 → (setThresholdRobust s t).thresholdWeight = t) := by
  unfold setThresholdRobust
  rcases lt_or_ge t 0 with h0 | h0
  · rw [if_pos h0]
    refine ⟨?_, fun h _ => by linarith⟩
    show (0 : ℝ) = min 1 (max 0 t)
    rw [max_eq_left h0.le, min_eq_right (by norm_num : (0:ℝ) ≤ 1)]
  · rw [if_neg (not_lt.mpr h0)]
    rcases lt_or_ge 1 t with h1 | h1
    · rw [if_pos h1]
      refine ⟨?_, fun _ h2 => by linarith⟩
      show (1 : ℝ) = min 1 (max 0 t)
      rw [max_eq_right h0, min_eq_left h1.le]
    · rw [if_neg (not_lt.mpr h1)]
      refine ⟨?_, fun _ _ => rfl⟩
      show t = min 1 (max 0 t)
      rw [max_eq_right h0, min_eq_right h1]

/-- Witness for C10 at a concrete in-range input. -/
theorem setThresholdRobust_minmax_witness :
    (setThresholdRobust testState (1 / 2)).thresholdWeight = 1 / 2 :=
  (setThresholdRobust_minmax testState (1 / 2)).2 (by norm_num) (by norm_num)

/-- C9: every read accessor returns a snapshot and leaves every field of the
tracker unchanged, and `getEquationParam` writes exactly the values returned
by `getA`, `getB` and `getE`. -/
theorem accessors_snapshot (s : MeEllipseState) :
    (get_m00 s).2 = s ∧ (get_m10 s).2 = s ∧ (get_m01 s).2 = s ∧
    (get_m11 s).2 = s ∧ (get_m20 s).2 = s ∧ (get_m02 s).2 = s ∧
    (get_mu11 s).2 = s ∧ (get_mu02 s).2 = s ∧ (get_mu20 s).2 = s ∧
    (getCenter s).2 = s ∧ (getA s).2 = s ∧ (getB s).2 = s ∧
    (getE s).2 = s ∧ (getEquationParam s).2 = s ∧
    (getSmallestAngle s).2 = s ∧ (getHighestAngle s).2 = s ∧
    (getEquationParam s).1 = ((getA s).1, (getB s).1, (getE s).1) :=
  ⟨rfl, rfl, rfl, rfl, rfl, rfl, rfl, rfl, rfl, rfl, rfl, rfl, rfl, rfl,
   rfl, rfl, rfl⟩

/-- C3: initialization fails with `InsufficientPointsError` whenever fewer
than the minimum required distinct points are supplied — 5 in ellipse mode,
3 in circle mode. -/
theorem initTrackingGuard_insufficient {α : Type} [DecidableEq α]
    (circle : Bool) (pts : List α)
    (h : pts.dedup.length < minRequiredPoints circle) :
    initTrackingGuard circle pts = .error .insufficientPoints := by
  unfold initTrackingGuard
  rw [if_pos h]

/-- Witness for C3: four distinct points in ellipse mode raise
`InsufficientPointsError`. -/
theorem initTrackingGuard_insufficient_witness :
    ([((0:ℚ), (0:ℚ)), (0, 1), (1, 0), (1, 1)].dedup.length <
        minRequiredPoints false) ∧
      initTrackingGuard false [((0:ℚ), (0:ℚ)), (0, 1), (1, 0), (1, 1)] =
        .error .insufficientPoints :=
  ⟨by decide, initTrackingGuard_insufficient false _ (by decide)⟩

/-- C4: once a site's robust-fit weight falls below the rejection threshold
at some iteration of the intra-frame re-weighting loop, that site is absent
from the active set of every subsequent iteration of that frame — the loop
itself never re-adds it. -/
theorem suppression_permanent (w : ℕ → ℚ × ℚ → ℚ) (thr : ℚ)
    (sites : List (ℚ × ℚ)) (p : ℚ × ℚ) (n m : ℕ)
    (hw : w n p < thr) (hnm : n < m) :
    p ∉ fitIterate w thr sites m := by
  induction m with
  | zero => exact absurd hnm (Nat.not_lt_zero n)
  | succ k ih =>
    rcases Nat.lt_succ_iff_lt_or_eq.mp hnm with h | h
    · intro hmem
      exact ih h (fitStep_subset _ _ _ p hmem)
    · subst h
      intro hmem
      simp only [fitIterate, fitStep] at hmem
      have h2 := List.of_mem_filter hmem
      simp only [decide_eq_true_eq] at h2
      linarith

/-- Helper: the residual objective is a sum of squares, hence nonnegative. -/
theorem conicResidual_nonneg (pts : List (ℝ × ℝ)) (K : ConicK) :
    0 ≤ conicResidual pts K := by
  apply List.sum_nonneg
  intro x hx
  simp only [List.mem_map] at hx
  obtain ⟨pt, -, rfl⟩ := hx
  exact sq_nonneg _

/-- C8: the moment computation is a pure deterministic function of the
geometric parameters: two states with identical geometric parameters get
identical values for all raw and central moment fields, whatever their site
sets; and no field other than the nine moment fields is modified. -/
theorem computeMoments_pure (s1 s2 : MeEllipseState)
    (h : stateParams s1 = stateParams s2) :
    momentFields (computeMoments s1) = momentFields (computeMoments s2) ∧
    coreFields (computeMoments s1) = coreFields s1 := by
  constructor
  · simp only [computeMoments, momentFields]
    rw [h]
  · rfl

/-- Witness for C8: two concrete states sharing geometric parameters but
with different site sets, thresholds and stored angles. -/
theorem computeMoments_pure_witness :
    momentFields (computeMoments testState) =
      momentFields (computeMoments testStateB) :=
  (computeMoments_pure testState testStateB rfl).1

/-- C5: whenever circle mode is enabled, a successful fit has coefficients
`K0 = 1` and `K1 = 0`, and the extracted semi-axes are exactly equal. -/
theorem circle_mode_fit (pts : List (ℝ × ℝ)) (K : ConicK)
    (h : leastSquareSpec true pts K) :
    K.k0 = 1 ∧ K.k1 = 0 ∧
      (getParametersK K true).a = (getParametersK K true).b := by
  obtain ⟨hK, -⟩ := h
  obtain ⟨h0, h1⟩ := hK rfl
  refine ⟨h0, h1, ?_⟩
  have hsq : conicSq K = 0 := by
    unfold conicSq
    rw [h0, h1]
    norm_num
  simp only [getParametersK]
  rw [hsq]
  norm_num

/-- Witness for C5: an exact circle fit on five rational unit-circle
points. -/
theorem circle_mode_fit_witness :
    leastSquareSpec true unitCirclePts ⟨1, 0, 0, 0, -1⟩ ∧
      (getParametersK ⟨1, 0, 0, 0, -1⟩ true).a =
        (getParametersK ⟨1, 0, 0, 0, -1⟩ true).b := by
  have hfit : leastSquareSpec true unitCirclePts ⟨1, 0, 0, 0, -1⟩ := by
    constructor
    · intro _
      exact ⟨rfl, rfl⟩
    · intro K' _
      have h0 : conicResidual unitCirclePts ⟨1, 0, 0, 0, -1⟩ = 0 := by
        simp only [conicResidual, unitCirclePts, conicEval, List.map_cons,
          List.map_nil, List.sum_cons, List.sum_nil]
        norm_num
      rw [h0]
      exact conicResidual_nonneg _ _
  exact ⟨hfit, (circle_mode_fit _ _ hfit).2.2⟩

/-- C6: whenever the fitted coefficients describe a real ellipse (the
nondegeneracy under which extraction is invoked), the extracted parameters
satisfy `a ≤ b` and the orientation lies in `[-π/2, π/2]`. -/
theorem getParameters_canonical (K : ConicK) (c : Bool)
    (hnum : 0 ≤ conicNum K) (hden : 0 < 1 + K.k0 - conicSq K) :
    (getParametersK K c).a ≤ (getParametersK K c).b ∧
    -(π / 2) ≤ (getParametersK K c).e ∧ (getParametersK K c).e ≤ π / 2 := by
  have hsq0 : 0 ≤ conicSq K := Real.sqrt_nonneg _
  refine ⟨?_, ?_, ?_⟩
  · simp only [getParametersK]
    apply Real.sqrt_le_sqrt
    apply div_le_div_of_nonneg_left (by linarith) hden (by linarith)
  · simp only [getParametersK]
    split_ifs with h
    · linarith [Real.pi_pos]
    · exact (Real.neg_pi_div_two_lt_arctan _).le
  · simp only [getParametersK]
    split_ifs with h
    · linarith [Real.pi_pos]
    · exact (Real.arctan_lt_pi_div_two _).le

/-- Witness for C6 at a concrete nondegenerate conic (the unit circle). -/
theorem getParameters_canonical_witness :
    (0 ≤ conicNum ⟨1, 0, 0, 0, -1⟩) ∧
      (0 < 1 + (ConicK.mk 1 0 0 0 (-1)).k0 - conicSq ⟨1, 0, 0, 0, -1⟩) ∧
      (getParametersK ⟨1, 0, 0, 0, -1⟩ false).a ≤
        (getParametersK ⟨1, 0, 0, 0, -1⟩ false).b := by
  have hnum : 0 ≤ conicNum ⟨1, 0, 0, 0, -1⟩ := by
    norm_num [conicNum, conicCenterI, conicCenterJ]
  have hden : 0 < 1 + (ConicK.mk 1 0 0 0 (-1)).k0 - conicSq ⟨1, 0, 0, 0, -1⟩ := by
    norm_num [conicSq]
  exact ⟨hnum, hden, (getParameters_canonical ⟨1, 0, 0, 0, -1⟩ false hnum hden).1⟩

/-- Helper: the wrapped angle is nonnegative. -/
theorem wrap2pi_nonneg (x : ℝ) : 0 ≤ wrap2pi x := by
  unfold wrap2pi
  have h := Int.fract_nonneg (x / (2 * π))
  have h2 : (0:ℝ) < 2 * π := by linarith [Real.pi_pos]
  exact mul_nonneg h2.le h

/-- Helper: the wrapped angle is below `2π`. -/
theorem wrap2pi_lt (x : ℝ) : wrap2pi x < 2 * π := by
  unfold wrap2pi
  have h := Int.fract_lt_one (x / (2 * π))
  have h0 := Int.fract_nonneg (x / (2 * π))
  nlinarith [Real.pi_pos]

/-- Helper: the largest-gap selection returns its seed or a list element. -/
theorem maxGapPair_mem (l : List (ℝ × ℝ)) (best : ℝ × ℝ) :
    maxGapPair best l = best ∨ maxGapPair best l ∈ l := by
  induction l generalizing best with
  | nil => exact Or.inl rfl
  | cons q qs ih =>
    unfold maxGapPair
    simp only [List.foldl_cons]
    rcases ih (if cyclicGap best < cyclicGap q then q else best) with h | h
    · unfold maxGapPair at h
      rw [h]
      split_ifs with hc
      · exact Or.inr (List.mem_cons_self q qs)
      · exact Or.inl rfl
    · unfold maxGapPair at h
      exact Or.inr (List.mem_cons_of_mem q h)

/-- Helper: for site angles inside `[0, 2π)`, the recomputed arc bounds are
ordered after wraparound normalization. -/
theorem computeArcBounds_le (angles : List ℝ)
    (h : ∀ x ∈ angles, 0 ≤ x ∧ x < 2 * π) :
    (computeArcBounds angles).1 ≤ (computeArcBounds angles).2 := by
  unfold computeArcBounds
  set sorted := angles.mergeSort fun x y => decide (x ≤ y) with hs
  have hmem : ∀ x ∈ sorted, 0 ≤ x ∧ x < 2 * π := by
    intro x hx
    rw [hs] at hx
    exact h x (List.mem_mergeSort.mp hx)
  cases hzip : sorted.zip (sorted.rotate 1) with
  | nil =>
    show (0:ℝ) ≤ 2 * π
    linarith [Real.pi_pos]
  | cons q qs =>
    show (normalizeArc (maxGapPair q qs).2 (maxGapPair q qs).1).1 ≤
      (normalizeArc (maxGapPair q qs).2 (maxGapPair q qs).1).2
    have hbest : maxGapPair q qs ∈ sorted.zip (sorted.rotate 1) := by
      rw [hzip]
      rcases maxGapPair_mem qs q with h1 | h1
      · rw [h1]
        exact List.mem_cons_self q qs
      · exact List.mem_cons_of_mem q h1
    have h1 : (maxGapPair q qs).1 ∈ sorted := (List.of_mem_zip hbest).1
    have h2 : (maxGapPair q qs).2 ∈ sorted :=
      List.mem_rotate.mp (List.of_mem_zip hbest).2
    obtain ⟨hb1, hb2⟩ := hmem _ h1
    obtain ⟨hc1, hc2⟩ := hmem _ h2
    unfold normalizeArc
    split_ifs with hlt
    · show (maxGapPair q qs).2 ≤ (maxGapPair q qs).1 + 2 * π
      linarith
    · show (maxGapPair q qs).2 ≤ (maxGapPair q qs).1
      linarith

/-- C7: after the angular bookkeeping that closes a successful tracking
cycle (angle recomputation followed by extremity recomputation), the stored
arc bounds satisfy `alpha1 ≤ alpha2` with the wraparound normalization
applied, for every tracker state. -/
theorem trackCycle_alpha_ordered (s : MeEllipseState) :
    (setExtremities (updateTheta s)).alpha1 ≤
      (setExtremities (updateTheta s)).alpha2 := by
  have h : ∀ x ∈ (updateTheta s).angle, 0 ≤ x ∧ x < 2 * π := by
    intro x hx
    simp only [updateTheta, List.mem_map] at hx
    obtain ⟨pt, -, rfl⟩ := hx
    simp only [siteAngle]
    exact ⟨wrap2pi_nonneg _, wrap2pi_lt _⟩
  exact computeArcBounds_le _ h

theorem conicOfGeom_k0 (ic jc a b ce se : ℝ) :
    (conicOfGeom ic jc a b ce se).k0 =
      (se ^ 2 / b ^ 2 + ce ^ 2 / a ^ 2) / (ce ^ 2 / b ^ 2 + se ^ 2 / a ^ 2) :=
  rfl

theorem conicOfGeom_k1 (ic jc a b ce se : ℝ) :
    (conicOfGeom ic jc a b ce se).k1 =
      ce * se * (1 / b ^ 2 - 1 / a ^ 2) / (ce ^ 2 / b ^ 2 + se ^ 2 / a ^ 2) :=
  rfl

theorem conicOfGeom_k2 (ic jc a b ce se : ℝ) :
    (conicOfGeom ic jc a b ce se).k2 =
      -(ic + ce * se * (1 / b ^ 2 - 1 / a ^ 2) /
        (ce ^ 2 / b ^ 2 + se ^ 2 / a ^ 2) * jc) :=
  rfl

theorem conicOfGeom_k3 (ic jc a b ce se : ℝ) :
    (conicOfGeom ic jc a b ce se).k3 =
      -(ce * se * (1 / b ^ 2 - 1 / a ^ 2) / (ce ^ 2 / b ^ 2 + se ^ 2 / a ^ 2) * ic +
        (se ^ 2 / b ^ 2 + ce ^ 2 / a ^ 2) / (ce ^ 2 / b ^ 2 + se ^ 2 / a ^ 2) * jc) :=
  rfl

theorem conicOfGeom_k4 (ic jc a b ce se : ℝ) :
    (conicOfGeom ic jc a b ce se).k4 =
      ic ^ 2 + (se ^ 2 / b ^ 2 + ce ^ 2 / a ^ 2) / (ce ^ 2 / b ^ 2 + se ^ 2 / a ^ 2) * jc ^ 2 +
        2 * (ce * se * (1 / b ^ 2 - 1 / a ^ 2) / (ce ^ 2 / b ^ 2 + se ^ 2 / a ^ 2)) * ic * jc -
        1 / (ce ^ 2 / b ^ 2 + se ^ 2 / a ^ 2) :=
  rfl

theorem roundtrip_Npos (a b ce se : ℝ) (h1 : ce ^ 2 + se ^ 2 = 1)
    (ha : a ≠ 0) (hb : b ≠ 0) :
    0 < ce ^ 2 / b ^ 2 + se ^ 2 / a ^ 2 := by
  have ha2 : 0 < a ^ 2 := pow_two_pos_of_ne_zero ha
  have hb2 : 0 < b ^ 2 := pow_two_pos_of_ne_zero hb
  rcases eq_or_ne ce 0 with hce | hce
  · have hse : se ^ 2 = 1 := by rw [hce] at h1; linarith
    rw [hce]
    have hz : (0:ℝ) ^ 2 / b ^ 2 = 0 := by norm_num
    rw [hz, hse]
    positivity
  · have h2 : 0 < ce ^ 2 / b ^ 2 := div_pos (pow_two_pos_of_ne_zero hce) hb2
    have h3 : 0 ≤ se ^ 2 / a ^ 2 := by positivity
    linarith

theorem div_sub_sq_div (x y n c : ℝ) (hn : n ≠ 0) (h : n * x - y ^ 2 = c) :
    x / n - (y / n) ^ 2 = c / n ^ 2 := by
  field_simp
  linear_combination n ^ 3 * h

theorem conicOfGeom_discr (ic jc a b ce se : ℝ) (h1 : ce ^ 2 + se ^ 2 = 1)
    (ha : 0 < a) (hb : 0 < b) :
    (conicOfGeom ic jc a b ce se).k0 - (conicOfGeom ic jc a b ce se).k1 ^ 2 =
      (1 / (a ^ 2 * b ^ 2)) / (ce ^ 2 / b ^ 2 + se ^ 2 / a ^ 2) ^ 2 := by
  have hN := roundtrip_Npos a b ce se h1 ha.ne' hb.ne'
  rw [conicOfGeom_k0, conicOfGeom_k1]
  have key : (ce ^ 2 / b ^ 2 + se ^ 2 / a ^ 2) * (se ^ 2 / b ^ 2 + ce ^ 2 / a ^ 2) -
      (ce * se * (1 / b ^ 2 - 1 / a ^ 2)) ^ 2 = (ce ^ 2 + se ^ 2) ^ 2 / (a ^ 2 * b ^ 2) := by
    ring
  rw [h1, one_pow] at key
  exact div_sub_sq_div _ _ _ _ hN.ne' key

theorem conicOfGeom_discr_pos (ic jc a b ce se : ℝ) (h1 : ce ^ 2 + se ^ 2 = 1)
    (ha : 0 < a) (hb : 0 < b) :
    0 < (conicOfGeom ic jc a b ce se).k0 - (conicOfGeom ic jc a b ce se).k1 ^ 2 := by
  have hN := roundtrip_Npos a b ce se h1 ha.ne' hb.ne'
  rw [conicOfGeom_discr ic jc a b ce se h1 ha hb]
  exact div_pos (by positivity) (pow_pos hN 2)

theorem roundtrip_centerI (ic jc a b ce se : ℝ) (h1 : ce ^ 2 + se ^ 2 = 1)
    (ha : 0 < a) (hb : 0 < b) :
    conicCenterI (conicOfGeom ic jc a b ce se) = ic := by
  have hd := (conicOfGeom_discr_pos ic jc a b ce se h1 ha hb).ne'
  unfold conicCenterI
  have hnum1 : (conicOfGeom ic jc a b ce se).k1 * (conicOfGeom ic jc a b ce se).k3 -
      (conicOfGeom ic jc a b ce se).k0 * (conicOfGeom ic jc a b ce se).k2 =
      ic * ((conicOfGeom ic jc a b ce se).k0 - (conicOfGeom ic jc a b ce se).k1 ^ 2) := by
    rw [conicOfGeom_k0, conicOfGeom_k1, conicOfGeom_k2, conicOfGeom_k3]
    ring
  rw [hnum1]
  exact mul_div_cancel_right₀ ic hd

theorem roundtrip_centerJ (ic jc a b ce se : ℝ) (h1 : ce ^ 2 + se ^ 2 = 1)
    (ha : 0 < a) (hb : 0 < b) :
    conicCenterJ (conicOfGeom ic jc a b ce se) = jc := by
  have hd := (conicOfGeom_discr_pos ic jc a b ce se h1 ha hb).ne'
  unfold conicCenterJ
  have hnum1 : (conicOfGeom ic jc a b ce se).k1 * (conicOfGeom ic jc a b ce se).k2 -
      (conicOfGeom ic jc a b ce se).k3 =
      jc * ((conicOfGeom ic jc a b ce se).k0 - (conicOfGeom ic jc a b ce se).k1 ^ 2) := by
    rw [conicOfGeom_k0, conicOfGeom_k1, conicOfGeom_k2, conicOfGeom_k3]
    ring
  rw [hnum1]
  exact mul_div_cancel_right₀ jc hd

theorem sq_div_arith (x y n : ℝ) (hn : n ≠ 0) :
    (x / n - 1) ^ 2 + 4 * (y / n) ^ 2 = ((x - n) ^ 2 + 4 * y ^ 2) / n ^ 2 := by
  field_simp

theorem roundtrip_sq (ic jc a b ce se : ℝ) (h1 : ce ^ 2 + se ^ 2 = 1)
    (ha : 0 < a) (hab : a < b) :
    conicSq (conicOfGeom ic jc a b ce se) =
      (1 / a ^ 2 - 1 / b ^ 2) / (ce ^ 2 / b ^ 2 + se ^ 2 / a ^ 2) := by
  have hb : 0 < b := ha.trans hab
  have hN := roundtrip_Npos a b ce se h1 ha.ne' hb.ne'
  have hD : 0 < 1 / a ^ 2 - 1 / b ^ 2 := by
    have h2 : a ^ 2 < b ^ 2 := by nlinarith
    have h3 : 1 / b ^ 2 < 1 / a ^ 2 := one_div_lt_one_div_of_lt (by positivity) h2
    linarith
  unfold conicSq
  rw [conicOfGeom_k0, conicOfGeom_k1, sq_div_arith _ _ _ hN.ne']
  have key : (se ^ 2 / b ^ 2 + ce ^ 2 / a ^ 2 - (ce ^ 2 / b ^ 2 + se ^ 2 / a ^ 2)) ^ 2 +
      4 * (ce * se * (1 / b ^ 2 - 1 / a ^ 2)) ^ 2 =
      (1 / a ^ 2 - 1 / b ^ 2) ^ 2 * (ce ^ 2 + se ^ 2) ^ 2 := by
    ring
  rw [key, h1, one_pow, mul_one, ← div_pow]
  exact Real.sqrt_sq (div_nonneg hD.le hN.le)

theorem roundtrip_num (ic jc a b ce se : ℝ) (h1 : ce ^ 2 + se ^ 2 = 1)
    (ha : 0 < a) (hb : 0 < b) :
    conicNum (conicOfGeom ic jc a b ce se) =
      1 / (ce ^ 2 / b ^ 2 + se ^ 2 / a ^ 2) := by
  unfold conicNum
  rw [roundtrip_centerI ic jc a b ce se h1 ha hb,
    roundtrip_centerJ ic jc a b ce se h1 ha hb,
    conicOfGeom_k0, conicOfGeom_k1, conicOfGeom_k4]
  ring

theorem one_add_div_add_div (x y n : ℝ) (hn : n ≠ 0) :
    1 + x / n + y / n = (n + x + y) / n := by
  field_simp

theorem one_add_div_sub_div (x y n : ℝ) (hn : n ≠ 0) :
    1 + x / n - y / n = (n + x - y) / n := by
  field_simp

theorem two_div_div_cancel (n c : ℝ) (hn : n ≠ 0) (hc : c ≠ 0) :
    2 * (1 / n) / (2 / c / n) = c := by
  field_simp
  ring

theorem roundtrip_a (ic jc a b ce se : ℝ) (h1 : ce ^ 2 + se ^ 2 = 1)
    (ha : 0 < a) (hab : a < b) :
    (getParametersK (conicOfGeom ic jc a b ce se) false).a = a := by
  have hb : 0 < b := ha.trans hab
  have hN := roundtrip_Npos a b ce se h1 ha.ne' hb.ne'
  show Real.sqrt (2 * conicNum (conicOfGeom ic jc a b ce se) /
    (1 + (conicOfGeom ic jc a b ce se).k0 + conicSq (conicOfGeom ic jc a b ce se))) = a
  rw [roundtrip_num ic jc a b ce se h1 ha hb, roundtrip_sq ic jc a b ce se h1 ha hab,
    conicOfGeom_k0, one_add_div_add_div _ _ _ hN.ne']
  have hnum2 : (ce ^ 2 / b ^ 2 + se ^ 2 / a ^ 2) + (se ^ 2 / b ^ 2 + ce ^ 2 / a ^ 2) +
      (1 / a ^ 2 - 1 / b ^ 2) = 2 / a ^ 2 := by
    have expand : (ce ^ 2 / b ^ 2 + se ^ 2 / a ^ 2) + (se ^ 2 / b ^ 2 + ce ^ 2 / a ^ 2) +
        (1 / a ^ 2 - 1 / b ^ 2) =
        (ce ^ 2 + se ^ 2) * (1 / a ^ 2) + (ce ^ 2 + se ^ 2) * (1 / b ^ 2) +
          (1 / a ^ 2 - 1 / b ^ 2) := by
      ring
    rw [expand, h1]
    ring
  rw [hnum2, two_div_div_cancel _ _ hN.ne' (by positivity)]
  exact Real.sqrt_sq ha.le

theorem roundtrip_b (ic jc a b ce se : ℝ) (h1 : ce ^ 2 + se ^ 2 = 1)
    (ha : 0 < a) (hab : a < b) :
    (getParametersK (conicOfGeom ic jc a b ce se) false).b = b := by
  have hb : 0 < b := ha.trans hab
  have hN := roundtrip_Npos a b ce se h1 ha.ne' hb.ne'
  show Real.sqrt (2 * conicNum (conicOfGeom ic jc a b ce se) /
    (1 + (conicOfGeom ic jc a b ce se).k0 - conicSq (conicOfGeom ic jc a b ce se))) = b
  rw [roundtrip_num ic jc a b ce se h1 ha hb, roundtrip_sq ic jc a b ce se h1 ha hab,
    conicOfGeom_k0, one_add_div_sub_div _ _ _ hN.ne']
  have hnum2 : (ce ^ 2 / b ^ 2 + se ^ 2 / a ^ 2) + (se ^ 2 / b ^ 2 + ce ^ 2 / a ^ 2) -
      (1 / a ^ 2 - 1 / b ^ 2) = 2 / b ^ 2 := by
    have expand : (ce ^ 2 / b ^ 2 + se ^ 2 / a ^ 2) + (se ^ 2 / b ^ 2 + ce ^ 2 / a ^ 2) -
        (1 / a ^ 2 - 1 / b ^ 2) =
        (ce ^ 2 + se ^ 2) * (1 / a ^ 2) + (ce ^ 2 + se ^ 2) * (1 / b ^ 2) -
          (1 / a ^ 2 - 1 / b ^ 2) := by
      ring
    rw [expand, h1]
    ring
  rw [hnum2, two_div_div_cancel _ _ hN.ne' (by positivity)]
  exact Real.sqrt_sq hb.le

theorem arg_div_cancel (c s d n : ℝ) (hc : c ≠ 0) (hd : d ≠ 0) (hn : n ≠ 0) :
    -2 * (c * s * -d / n) / (2 * c ^ 2 * d / n) = s / c := by
  field_simp
  ring

theorem div_sub_one_add_div (x y n : ℝ) (hn : n ≠ 0) :
    x / n - 1 + y / n = (x - n + y) / n := by
  field_simp

theorem conicOfGeom_k1_ne (ic jc a b ce se : ℝ) (h1 : ce ^ 2 + se ^ 2 = 1)
    (ha : 0 < a) (hab : a < b) (hce : ce ≠ 0) (hse : se ≠ 0) :
    (conicOfGeom ic jc a b ce se).k1 ≠ 0 := by
  have hb : 0 < b := ha.trans hab
  have hN := roundtrip_Npos a b ce se h1 ha.ne' hb.ne'
  have hD : 1 / b ^ 2 - 1 / a ^ 2 ≠ 0 := by
    have h2 : a ^ 2 < b ^ 2 := by nlinarith
    have h3 : 1 / b ^ 2 < 1 / a ^ 2 := one_div_lt_one_div_of_lt (by positivity) h2
    linarith
  rw [conicOfGeom_k1]
  exact div_ne_zero (mul_ne_zero (mul_ne_zero hce hse) hD) hN.ne'

theorem roundtrip_arg (ic jc a b ce se : ℝ) (h1 : ce ^ 2 + se ^ 2 = 1)
    (ha : 0 < a) (hab : a < b) (hce : ce ≠ 0) :
    -2 * (conicOfGeom ic jc a b ce se).k1 /
      ((conicOfGeom ic jc a b ce se).k0 - 1 +
        conicSq (conicOfGeom ic jc a b ce se)) = se / ce := by
  have hb : 0 < b := ha.trans hab
  have hN := roundtrip_Npos a b ce se h1 ha.ne' hb.ne'
  have hD : 0 < 1 / a ^ 2 - 1 / b ^ 2 := by
    have h2 : a ^ 2 < b ^ 2 := by nlinarith
    have h3 : 1 / b ^ 2 < 1 / a ^ 2 := one_div_lt_one_div_of_lt (by positivity) h2
    linarith
  rw [roundtrip_sq ic jc a b ce se h1 ha hab, conicOfGeom_k0, conicOfGeom_k1,
    div_sub_one_add_div _ _ _ hN.ne']
  have hnum3 : (se ^ 2 / b ^ 2 + ce ^ 2 / a ^ 2) - (ce ^ 2 / b ^ 2 + se ^ 2 / a ^ 2) +
      (1 / a ^ 2 - 1 / b ^ 2) = 2 * ce ^ 2 * (1 / a ^ 2 - 1 / b ^ 2) := by
    linear_combination (1 / b ^ 2 - 1 / a ^ 2) * h1
  rw [hnum3]
  have rewrite_k1 : ce * se * (1 / b ^ 2 - 1 / a ^ 2) =
      ce * se * -(1 / a ^ 2 - 1 / b ^ 2) := by
    ring
  rw [rewrite_k1]
  exact arg_div_cancel ce se (1 / a ^ 2 - 1 / b ^ 2) _ hce hD.ne' hN.ne'

theorem getParametersK_conicOfParams (p : GeoParams) (ha : 0 < p.a)
    (hab : p.a < p.b) (he1 : -(π / 2) < p.e) (he2 : p.e < π / 2) :
    getParametersK (conicOfParams p) false = p := by
  obtain ⟨ic, jc, a, b, e⟩ := p
  simp only at ha hab he1 he2
  have h1 : Real.cos e ^ 2 + Real.sin e ^ 2 = 1 := Real.cos_sq_add_sin_sq e
  have hb : 0 < b := ha.trans hab
  show getParametersK (conicOfGeom ic jc a b (Real.cos e) (Real.sin e)) false =
    ⟨ic, jc, a, b, e⟩
  have hic := roundtrip_centerI ic jc a b (Real.cos e) (Real.sin e) h1 ha hb
  have hjc := roundtrip_centerJ ic jc a b (Real.cos e) (Real.sin e) h1 ha hb
  have hA := roundtrip_a ic jc a b (Real.cos e) (Real.sin e) h1 ha hab
  have hB := roundtrip_b ic jc a b (Real.cos e) (Real.sin e) h1 ha hab
  have hE : (getParametersK (conicOfGeom ic jc a b (Real.cos e) (Real.sin e))
      false).e = e := by
    rcases eq_or_ne (Real.sin e) 0 with hse | hse
    · have he0 : e = 0 := by
        have hpi := Real.pi_pos
        exact (Real.sin_eq_zero_iff_of_lt_of_lt (by linarith) (by linarith)).mp hse
      have hk1 : (conicOfGeom ic jc a b (Real.cos e) (Real.sin e)).k1 = 0 := by
        rw [conicOfGeom_k1, hse]
        norm_num
      show (if false = true ∨
          (conicOfGeom ic jc a b (Real.cos e) (Real.sin e)).k1 = 0 then (0:ℝ)
        else Real.arctan _) = e
      rw [if_pos (Or.inr hk1), he0]
    · have hce : 0 < Real.cos e := Real.cos_pos_of_mem_Ioo ⟨he1, he2⟩
      have hk1ne := conicOfGeom_k1_ne ic jc a b (Real.cos e) (Real.sin e)
        h1 ha hab hce.ne' hse
      show (if false = true ∨
          (conicOfGeom ic jc a b (Real.cos e) (Real.sin e)).k1 = 0 then (0:ℝ)
        else Real.arctan (-2 * (conicOfGeom ic jc a b (Real.cos e) (Real.sin e)).k1 /
          ((conicOfGeom ic jc a b (Real.cos e) (Real.sin e)).k0 - 1 +
            conicSq (conicOfGeom ic jc a b (Real.cos e) (Real.sin e))))) = e
      rw [if_neg (by simp [hk1ne])]
      rw [roundtrip_arg ic jc a b (Real.cos e) (Real.sin e) h1 ha hab hce.ne',
        ← Real.tan_eq_sin_div_cos]
      exact Real.arctan_tan he1 he2
  have heta : getParametersK (conicOfGeom ic jc a b (Real.cos e) (Real.sin e)) false =
      ⟨conicCenterI (conicOfGeom ic jc a b (Real.cos e) (Real.sin e)),
       conicCenterJ (conicOfGeom ic jc a b (Real.cos e) (Real.sin e)),
       (getParametersK (conicOfGeom ic jc a b (Real.cos e) (Real.sin e)) false).a,
       (getParametersK (conicOfGeom ic jc a b (Real.cos e) (Real.sin e)) false).b,
       (getParametersK (conicOfGeom ic jc a b (Real.cos e) (Real.sin e)) false).e⟩ :=
    rfl
  rw [heta, hic, hjc, hA, hB, hE]

theorem leastSquare_exact (pts : List (ℝ × ℝ)) (K Kt : ConicK)
    (hexact : ∀ pt ∈ pts, conicEval Kt pt = 0)
    (hfit : leastSquareSpec false pts K) :
    ∀ pt ∈ pts, conicEval K pt = 0 := by
  have h0 : conicResidual pts Kt = 0 := by
    apply List.sum_eq_zero
    intro x hx
    simp only [List.mem_map] at hx
    obtain ⟨pt, hpt, rfl⟩ := hx
    rw [hexact pt hpt]
    norm_num
  have hle := hfit.2 Kt (fun h => Bool.noConfusion h)
  rw [h0] at hle
  have heq : conicResidual pts K = 0 :=
    le_antisymm hle (conicResidual_nonneg pts K)
  intro pt hpt
  have hsq : conicEval K pt ^ 2 = 0 := by
    apply le_antisymm _ (sq_nonneg _)
    calc conicEval K pt ^ 2 ≤ conicResidual pts K := by
          apply List.single_le_sum
          · intro x hx
            simp only [List.mem_map] at hx
            obtain ⟨q, -, rfl⟩ := hx
            exact sq_nonneg _
          · exact List.mem_map_of_mem _ hpt
      _ = 0 := heq
  exact pow_eq_zero_iff two_ne_zero |>.mp hsq

/-- C2 (amended): for every set of at least 5 points that lie exactly on the
ellipse with parameters `p` and determine its conic uniquely (the reading of
"non-collinear"/general position), where `0 < a < b` and the orientation is
canonical (`|e| < π/2`), every least-squares conic fit followed by
parameter extraction recovers the center, `a`, `b` and `e` exactly (the
round-trip law, in exact real arithmetic). -/
theorem roundtrip_theorem (p : GeoParams) (pts : List (ℝ × ℝ)) (K : ConicK)
    (ha : 0 < p.a) (hab : p.a < p.b) (he1 : -(π / 2) < p.e) (he2 : p.e < π / 2)
    (hlen : 5 ≤ pts.length)
    (hon : ∀ pt ∈ pts, onEllipse p pt)
    (huniq : ∀ K' : ConicK, (∀ pt ∈ pts, conicEval K' pt = 0) → K' = conicOfParams p)
    (hfit : leastSquareSpec false pts K) :
    getParametersK K false = p := by
  simp only [onEllipse] at hon
  have hexact := leastSquare_exact pts K (conicOfParams p) hon hfit
  rw [huniq K hexact]
  exact getParametersK_conicOfParams p ha hab he1 he2

theorem conicOfParams_circle1 :
    conicOfParams ⟨0, 0, 1, 1, 1⟩ = ⟨1, 0, 0, 0, -1⟩ := by
  simp only [conicOfParams, conicOfGeom]
  norm_num [Real.sin_sq_add_cos_sq, Real.cos_sq_add_sin_sq]

theorem conicOfParams_scenario1 :
    conicOfParams ⟨100, 100, 30, 50, 0⟩ =
      ⟨25 / 9, 0, -100, -2500 / 9, 317500 / 9⟩ := by
  simp only [conicOfParams, conicOfGeom]
  norm_num [Real.cos_zero, Real.sin_zero]

/-- Counterexample to C2 as stated: with `a ≤ b` allowed to be an equality,
five rational points of the unit circle lie exactly on the ellipse with
parameters `(0, 0, 1, 1, 1)` (`a = b = 1`, orientation `e = 1`), the exact
least-squares fit returns the circle conic, but extraction yields
orientation `0 ≠ 1` — a circle does not determine its orientation, so the
claimed recovery of `e` fails. -/
theorem roundtrip_not_universal :
    ¬ (∀ (p : GeoParams) (pts : List (ℝ × ℝ)) (K : ConicK),
        0 < p.a → p.a ≤ p.b → 5 ≤ pts.length →
        (∀ pt ∈ pts, onEllipse p pt) →
        (∀ K' : ConicK, (∀ pt ∈ pts, conicEval K' pt = 0) → K' = conicOfParams p) →
        leastSquareSpec false pts K →
        getParametersK K false = p) := by
  intro hclaim
  have hon : ∀ pt ∈ [((1:ℝ), (0:ℝ)), (-1, 0), (0, 1), (0, -1), (3/5, 4/5)],
      onEllipse ⟨0, 0, 1, 1, 1⟩ pt := by
    simp only [onEllipse, conicOfParams_circle1]
    intro pt hpt
    simp only [List.mem_cons, List.not_mem_nil, or_false] at hpt
    rcases hpt with rfl | rfl | rfl | rfl | rfl <;> norm_num [conicEval]
  have huniq : ∀ K' : ConicK,
      (∀ pt ∈ [((1:ℝ), (0:ℝ)), (-1, 0), (0, 1), (0, -1), (3/5, 4/5)],
        conicEval K' pt = 0) → K' = conicOfParams ⟨0, 0, 1, 1, 1⟩ := by
    intro K' hK'
    rw [conicOfParams_circle1]
    obtain ⟨k0, k1, k2, k3, k4⟩ := K'
    have e1 := hK' (1, 0) (by norm_num)
    have e2 := hK' (-1, 0) (by norm_num)
    have e3 := hK' (0, 1) (by norm_num)
    have e4 := hK' (0, -1) (by norm_num)
    have e5 := hK' (3/5, 4/5) (by norm_num)
    simp only [conicEval] at e1 e2 e3 e4 e5
    norm_num at e1 e2 e3 e4 e5
    simp only [ConicK.mk.injEq]
    refine ⟨by linarith, by linarith, by linarith, by linarith, by linarith⟩
  have hfit : leastSquareSpec false [((1:ℝ), (0:ℝ)), (-1, 0), (0, 1), (0, -1), (3/5, 4/5)]
      ⟨1, 0, 0, 0, -1⟩ := by
    constructor
    · intro h
      exact Bool.noConfusion h
    · intro K' _
      have h0 : conicResidual [((1:ℝ), (0:ℝ)), (-1, 0), (0, 1), (0, -1), (3/5, 4/5)]
          ⟨1, 0, 0, 0, -1⟩ = 0 := by
        norm_num [conicResidual, conicEval]
      rw [h0]
      exact conicResidual_nonneg _ _
  have hres := hclaim ⟨0, 0, 1, 1, 1⟩ _ ⟨1, 0, 0, 0, -1⟩ (by norm_num) (by norm_num)
    (by norm_num) hon huniq hfit
  have he := congrArg GeoParams.e hres
  have hz : (getParametersK (⟨1, 0, 0, 0, -1⟩ : ConicK) false).e = 0 := by
    show (if false = true ∨ (⟨1, 0, 0, 0, -1⟩ : ConicK).k1 = 0 then (0:ℝ)
      else Real.arctan (-2 * (⟨1, 0, 0, 0, -1⟩ : ConicK).k1 /
        ((⟨1, 0, 0, 0, -1⟩ : ConicK).k0 - 1 + conicSq ⟨1, 0, 0, 0, -1⟩))) = 0
    rw [if_pos (Or.inr rfl)]
  rw [hz] at he
  norm_num at he

/-- Witness for C2 (amended) at the spec Scenario 1 geometry: center
`(100, 100)`, `a = 30`, `b = 50`, `e = 0`, six exact rational points. -/
theorem roundtrip_theorem_witness :
    getParametersK ⟨25 / 9, 0, -100, -2500 / 9, 317500 / 9⟩ false =
      ⟨100, 100, 30, 50, 0⟩ := by
  have hon : ∀ pt ∈ [((150:ℝ), (100:ℝ)), (50, 100), (100, 130), (100, 70),
      (130, 124), (130, 76)], onEllipse ⟨100, 100, 30, 50, 0⟩ pt := by
    simp only [onEllipse, conicOfParams_scenario1]
    intro pt hpt
    simp only [List.mem_cons, List.not_mem_nil, or_false] at hpt
    rcases hpt with rfl | rfl | rfl | rfl | rfl | rfl <;> norm_num [conicEval]
  have huniq : ∀ K' : ConicK,
      (∀ pt ∈ [((150:ℝ), (100:ℝ)), (50, 100), (100, 130), (100, 70),
        (130, 124), (130, 76)], conicEval K' pt = 0) →
      K' = conicOfParams ⟨100, 100, 30, 50, 0⟩ := by
    intro K' hK'
    rw [conicOfParams_scenario1]
    obtain ⟨k0, k1, k2, k3, k4⟩ := K'
    have e1 := hK' (150, 100) (by norm_num)
    have e2 := hK' (50, 100) (by norm_num)
    have e3 := hK' (100, 130) (by norm_num)
    have e4 := hK' (100, 70) (by norm_num)
    have e5 := hK' (130, 124) (by norm_num)
    have e6 := hK' (130, 76) (by norm_num)
    simp only [conicEval] at e1 e2 e3 e4 e5 e6
    norm_num at e1 e2 e3 e4 e5 e6
    simp only [ConicK.mk.injEq]
    refine ⟨by linarith, by linarith, by linarith, by linarith, by linarith⟩
  have hfit : leastSquareSpec false [((150:ℝ), (100:ℝ)), (50, 100), (100, 130),
      (100, 70), (130, 124), (130, 76)] ⟨25 / 9, 0, -100, -2500 / 9, 317500 / 9⟩ := by
    constructor
    · intro h
      exact Bool.noConfusion h
    · intro K' _
      have h0 : conicResidual [((150:ℝ), (100:ℝ)), (50, 100), (100, 130),
          (100, 70), (130, 124), (130, 76)]
          ⟨25 / 9, 0, -100, -2500 / 9, 317500 / 9⟩ = 0 := by
        norm_num [conicResidual, conicEval]
      rw [h0]
      exact conicResidual_nonneg _ _
  have hres := roundtrip_theorem ⟨100, 100, 30, 50, 0⟩ _ _
    (by norm_num) (by norm_num)
    (by show -(π / 2) < (0:ℝ); linarith [Real.pi_pos])
    (by show (0:ℝ) < π / 2; linarith [Real.pi_pos])
    (by norm_num) hon huniq hfit
  exact hres

theorem conic_eval_decomp (ic jc di dj q0 q1 n : ℝ) (hn : n ≠ 0) :
    (ic + di) ^ 2 + q0 / n * (jc + dj) ^ 2 +
      2 * (q1 / n) * (ic + di) * (jc + dj) +
      2 * -(ic + q1 / n * jc) * (ic + di) +
      2 * -(q1 / n * ic + q0 / n * jc) * (jc + dj) +
      (ic ^ 2 + q0 / n * jc ^ 2 + 2 * (q1 / n) * ic * jc - 1 / n) =
      (n * di ^ 2 + q0 * dj ^ 2 + 2 * q1 * di * dj - 1) / n := by
  field_simp
  ring

theorem conicOfGeom_eval_offset (ic jc a b ce se di dj : ℝ)
    (ha : a ≠ 0) (hb : b ≠ 0) (h1 : ce ^ 2 + se ^ 2 = 1)
    (hq : (di * ce + dj * se) ^ 2 / b ^ 2 + (di * se - dj * ce) ^ 2 / a ^ 2 = 1) :
    conicEval (conicOfGeom ic jc a b ce se) (ic + di, jc + dj) = 0 := by
  have hN := roundtrip_Npos a b ce se h1 ha hb
  simp only [conicEval, conicOfGeom_k0, conicOfGeom_k1, conicOfGeom_k2,
    conicOfGeom_k3, conicOfGeom_k4]
  rw [conic_eval_decomp ic jc di dj _ _ _ hN.ne']
  have trin : (ce ^ 2 / b ^ 2 + se ^ 2 / a ^ 2) * di ^ 2 +
      (se ^ 2 / b ^ 2 + ce ^ 2 / a ^ 2) * dj ^ 2 +
      2 * (ce * se * (1 / b ^ 2 - 1 / a ^ 2)) * di * dj =
      (di * ce + dj * se) ^ 2 / b ^ 2 + (di * se - dj * ce) ^ 2 / a ^ 2 := by
    ring
  rw [trin, hq]
  norm_num

theorem onEllipse_ellipsePoint (p : GeoParams) (ha : p.a ≠ 0) (hb : p.b ≠ 0)
    (α : ℝ) : onEllipse p (ellipsePoint p α) := by
  obtain ⟨ic, jc, a, b, e⟩ := p
  simp only at ha hb
  have h1 : Real.cos e ^ 2 + Real.sin e ^ 2 = 1 := Real.cos_sq_add_sin_sq e
  have h2 : Real.cos α ^ 2 + Real.sin α ^ 2 = 1 := Real.cos_sq_add_sin_sq α
  show conicEval (conicOfGeom ic jc a b (Real.cos e) (Real.sin e))
    (ic + b * Real.cos e * Real.cos α - a * Real.sin e * Real.sin α,
     jc + b * Real.sin e * Real.cos α + a * Real.cos e * Real.sin α) = 0
  have e1 : ic + b * Real.cos e * Real.cos α - a * Real.sin e * Real.sin α =
      ic + (b * Real.cos e * Real.cos α - a * Real.sin e * Real.sin α) := by
    ring
  have e2 : jc + b * Real.sin e * Real.cos α + a * Real.cos e * Real.sin α =
      jc + (b * Real.sin e * Real.cos α + a * Real.cos e * Real.sin α) := by
    ring
  rw [e1, e2]
  apply conicOfGeom_eval_offset ic jc a b (Real.cos e) (Real.sin e) _ _ ha hb h1
  have hu : (b * Real.cos e * Real.cos α - a * Real.sin e * Real.sin α) * Real.cos e +
      (b * Real.sin e * Real.cos α + a * Real.cos e * Real.sin α) * Real.sin e =
      b * Real.cos α := by
    linear_combination (b * Real.cos α) * h1
  have hv : (b * Real.cos e * Real.cos α - a * Real.sin e * Real.sin α) * Real.sin e -
      (b * Real.sin e * Real.cos α + a * Real.cos e * Real.sin α) * Real.cos e =
      -(a * Real.sin α) := by
    linear_combination (-(a * Real.sin α)) * h1
  rw [hu, hv]
  have hbb : (b * Real.cos α) ^ 2 / b ^ 2 = Real.cos α ^ 2 := by
    rw [mul_pow]
    field_simp
  have haa : (-(a * Real.sin α)) ^ 2 / a ^ 2 = Real.sin α ^ 2 := by
    rw [neg_pow, mul_pow]
    field_simp
  rw [hbb, haa, h2]

/-- Witness for C4: a single site whose iteration-0 weight is below the
threshold is gone after the first re-weighting iteration. -/
theorem suppression_permanent_witness :
    ((fun (_ : ℕ) (_ : ℚ × ℚ) => (0:ℚ)) 0 ((1:ℚ), (2:ℚ)) < 1) ∧
      ((1:ℚ), (2:ℚ)) ∉
        fitIterate (fun (_ : ℕ) (_ : ℚ × ℚ) => (0:ℚ)) 1 [((1:ℚ), (2:ℚ))] 1 :=
  ⟨by norm_num,
   suppression_permanent (fun (_ : ℕ) (_ : ℚ × ℚ) => (0:ℚ)) 1
     [((1:ℚ), (2:ℚ))] ((1:ℚ), (2:ℚ)) 0 1 (by norm_num) (by norm_num)⟩
